import Mathlib

/-!
Verification development for the `smooth_float_qt6` window-ring switcher
(`src/main.py`).  The definitions below are a shallow embedding of the
ring engine: the app-name normalizer, the window grouper, the radial
layout, the hit test, and the interaction state machine of `WindowRing`.
Machine floats are idealized as real numbers; Python integers are `Int`
(with Python's `%` being Euclidean remainder for positive divisors);
strings are Lean strings (`List Char` backed, matching Python unicode
strings for the ASCII data involved).
-/

/-! ### Configuration constants (the `CONFIG` dict) -/

def HUB_RADIUS : ℝ := 190
def SPOKE_LENGTH : ℝ := 70
def NODE_RADIUS : ℝ := 16
def PEEK_ENABLED : Bool := true
def KEYBOARD_NAV : Bool := true

/-! ### Window descriptors -/

/-- One entry of the window snapshot: `{'id': ..., 'app': ..., 'title': ...}`. -/
structure Win where
  id : String
  app : String
  title : String
deriving DecidableEq

/-! ### Python string helpers -/

/-- Python's `needle in hay` substring test, on the character lists. -/
def containsSub (needle : List Char) : List Char → Bool
  | [] => needle.isEmpty
  | c :: rest => needle.isPrefixOf (c :: rest) || containsSub needle rest

/-- Python's `x in s` for strings (substring containment). -/
def strIn (needle hay : String) : Bool :=
  containsSub needle.data hay.data

/-- Python's `s.lower()`: lower-case every character (ASCII data here). -/
def strLower (s : String) : String :=
  ⟨s.data.map Char.toLower⟩

/-! ### App Name Normalizer (`WindowRing._normalize_app_name`) -/

/-- The browser-consolidation block of `_normalize_app_name` (lines
120-126): `none` means the block falls through — either the browser
family test failed, or it matched (e.g. `chromium`, `edge`) but none of
the three inner substrings did. -/
def browserKey (app_lower : String) : Option String :=
  if ["chrome", "chromium", "brave", "firefox", "edge"].any (fun x => strIn x app_lower) then
    if strIn "brave" app_lower then some "Brave"
    else if strIn "firefox" app_lower then some "Firefox"
    else if strIn "chrome" app_lower then some "Chrome"
    else none
  else none

/-- `_normalize_app_name` from `src/main.py` lines 115-136. -/
def normalize_app_name (app_name : String) : String :=
  match browserKey (strLower app_name) with
  | some r => r
  | none =>
    if ["code", "vscode", "vscodium"].any (fun x => strIn x (strLower app_name)) then "Code"
    else if ["terminal", "konsole", "qterminal", "gnome-terminal"].any
        (fun x => strIn x (strLower app_name)) then "Terminal"
    else app_name

/-! ### Window Grouper (`WindowRing.__init__`, lines 49-54)

`self.groups` is a `defaultdict(list)`: an insertion-ordered map from
normalized app key to the list of windows appended for that key.  We
model it as an association list; `addToGroups` appends to the first
bucket with the given key, or appends a fresh bucket at the end. -/

def addToGroups (gs : List (String × List Win)) (k : String) (w : Win) :
    List (String × List Win) :=
  match gs with
  | [] => [(k, [w])]
  | (k₀, b) :: rest =>
    if k₀ = k then (k₀, b ++ [w]) :: rest
    else (k₀, b) :: addToGroups rest k w

/-- The grouping loop of `WindowRing.__init__`. -/
def buildGroups (windows : List Win) : List (String × List Win) :=
  windows.foldl (fun gs w => addToGroups gs (normalize_app_name w.app) w) []

/-- Dictionary read `self.groups[k]` (first matching bucket; `[]` if absent). -/
def lookupG : List (String × List Win) → String → List Win
  | [], _ => []
  | (k₀, b) :: rest, k => if k₀ = k then b else lookupG rest k

/-- Lexicographic `≤` on character lists by code point (Python's string
order for the ASCII data involved). -/
def listLe : List Char → List Char → Bool
  | [], _ => true
  | _ :: _, [] => false
  | a :: as, b :: bs =>
    if a.toNat < b.toNat then true
    else if b.toNat < a.toNat then false
    else listLe as bs

/-- Python's `<=` on strings. -/
def strLe (a b : String) : Bool :=
  listLe a.data b.data

/-- Insert a key into an already sorted list of keys. -/
def insertSorted (k : String) : List String → List String
  | [] => [k]
  | x :: xs => if strLe k x then k :: x :: xs else x :: insertSorted k xs

/-- `sorted(self.groups.keys())` (lexicographic sort of the group keys). -/
def sortKeys (gs : List (String × List Win)) : List String :=
  (gs.map Prod.fst).foldr insertSorted []

/-- `self.flat_windows` as rebuilt by `paintEvent`: windows in app-major
(sorted app key) order, snapshot order within each app. -/
def flat_windows (gs : List (String × List Win)) : List Win :=
  (sortKeys gs).flatMap (fun k => lookupG gs k)

/-! ### Interaction state (`WindowRing` mutable fields) -/

/-- The mutable interaction fields of a `WindowRing`, plus `peeked`, the
trace of window ids for which a peek request was issued to `wmctrl`. -/
structure RingState where
  hover : Option String      -- self.hover_win_id
  sel : Int                  -- self.selected_index
  pending : Option String    -- self.pending_peek_id
  timerOn : Bool             -- whether self.peek_timer is running
  flat : List Win            -- self.flat_windows
  peeked : List String       -- ids sent a peek request so far
  closed : Bool              -- whether self.close() has run
deriving DecidableEq

/-- Python truthiness of an optional string (`if self.hover_win_id:`). -/
def truthy : Option String → Bool
  | none => false
  | some s => s ≠ ""

/-- Outcome of one external `subprocess.run` invocation. -/
inductive ExtCall
  | ok
  | raises
deriving DecidableEq

/-- The external call either returns or raises an exception. -/
def runActivate : ExtCall → Except Unit Unit
  | .ok => .ok ()
  | .raises => .error ()

/-- `WindowRing._do_peek` (lines 378-387): if a peek id is pending, the
`wmctrl` peek request is issued inside `try: ... except: pass`, so the
handler returns normally for every outcome of the external call. -/
def do_peek (s : RingState) (ext : ExtCall) : RingState :=
  if truthy s.pending then
    match runActivate ext with
    | .ok _ => { s with peeked := s.peeked ++ [s.pending.getD ""] }
    | .error _ => { s with peeked := s.peeked ++ [s.pending.getD ""] }
  else s

/-- The state-update half of `WindowRing.mouseMoveEvent` (lines 366-376),
taking the hit-test result `(new_hover_id, new_selected)` already
computed from the pointer position. -/
def mouseMoveUpdate (s : RingState) (newHover : Option String) (newSel : Int) : RingState :=
  if newHover ≠ s.hover then
    let s1 := { s with hover := newHover, sel := newSel, timerOn := false }
    if truthy newHover && PEEK_ENABLED then
      { s1 with pending := newHover, timerOn := true }
    else s1
  else s

/-- `WindowRing.mousePressEvent` (lines 389-395), left button.  The
activation call has no `try`/`except` and no timeout: if it raises, the
exception propagates (`.error`) and `self.close()` is never reached. -/
def mousePressEvent (s : RingState) (ext : ExtCall) : Except Unit RingState :=
  if truthy s.hover then
    match runActivate ext with
    | .ok _ => .ok { s with closed := true }
    | .error _ => .error ()
  else .ok { s with closed := true }

/-- Abstracted key groups of `WindowRing.keyPressEvent`. -/
inductive Key
  | escape    -- Key_Escape
  | next      -- Key_Tab / Key_Right / Key_Down
  | prev      -- Key_Backtab / Key_Left / Key_Up
  | confirm   -- Key_Return / Key_Space
  | other
deriving DecidableEq

/-- `WindowRing.keyPressEvent` (lines 397-420).  Navigation uses Python's
`%` (Euclidean remainder, non-negative for a positive divisor); the
confirm branch issues an unguarded activation call before `close()`. -/
def keyPressEvent (s : RingState) (k : Key) (ext : ExtCall) : Except Unit RingState :=
  match k with
  | .escape => .ok { s with closed := true }
  | .next =>
    .ok (if KEYBOARD_NAV && !s.flat.isEmpty then
      let i := (s.sel + 1) % (s.flat.length : Int)
      { s with sel := i, hover := (s.flat.get? i.toNat).map Win.id }
    else s)
  | .prev =>
    .ok (if KEYBOARD_NAV && !s.flat.isEmpty then
      let i := (s.sel - 1) % (s.flat.length : Int)
      { s with sel := i, hover := (s.flat.get? i.toNat).map Win.id }
    else s)
  | .confirm =>
    if truthy s.hover then
      match runActivate ext with
      | .ok _ => .ok { s with closed := true }
      | .error _ => .error ()
    else .ok s
  | .other => .ok s

/-! ### Event traces

Events delivered serially to a live ring: pointer moves (carrying the
hit-test result), key presses, and the one-shot peek-timer expiry.  The
timer can only fire while it is running, and firing deactivates it. -/

inductive Ev
  | move (hit : Option (Nat × String))
  | key (k : Key) (ext : ExtCall)
  | fire (ext : ExtCall)

/-- `new_selected` from a hit-test result (`-1` when nothing is hit). -/
def hitSel : Option (Nat × String) → Int
  | some p => (p.1 : Int)
  | none => -1

/-- The id component of a hit-test result. -/
def hitId (hit : Option (Nat × String)) : Option String :=
  hit.map Prod.snd

/-- One dispatched event.  A handler exception is caught by the event
loop (Qt prints it and continues), leaving the state as mutated so far;
in the source nothing is mutated before the raising call, so the state
is unchanged. -/
def step (s : RingState) (e : Ev) : RingState :=
  match e with
  | .move hit => mouseMoveUpdate s (hitId hit) (hitSel hit)
  | .key k ext =>
    match keyPressEvent s k ext with
    | .ok s' => s'
    | .error _ => s
  | .fire ext => if s.timerOn then { do_peek s ext with timerOn := false } else s

/-- Run a list of events. -/
def runEvents (s : RingState) (es : List Ev) : RingState :=
  es.foldl step s

/-! ### Animation progress setter (`anim_progress.setter`, lines 142-145) -/

/-- The stored value after `self.anim_progress = v`. -/
def anim_progress_set (v : ℝ) : ℝ :=
  max 0 (min 1 v)

/-! ### Radial layout (`WindowRing.paintEvent`, lines 205-275)

`paintEvent` rebuilds `self.node_positions` (a list of
`(center, radius, window)` triples) and `self.flat_windows` each frame.
The stored radius is the *drawn* radius: `NODE_RADIUS * prog`, further
scaled by `1.6` when the node is hovered or selected. -/

/-- `angle = (2 * math.pi * i / num_apps) - (math.pi / 2)` (line 216). -/
noncomputable def hubAngle (n i : ℕ) : ℝ :=
  2 * Real.pi * i / n - Real.pi / 2

/-- Hub position (lines 217-219): `hub_dist = hub_radius * prog`. -/
noncomputable def hub_pos (cx cy prog : ℝ) (n i : ℕ) : ℝ × ℝ :=
  (cx + HUB_RADIUS * prog * Real.cos (hubAngle n i),
   cy + HUB_RADIUS * prog * Real.sin (hubAngle n i))

/-- `spoke_off` (line 252) for window `j` of an app with `m` windows. -/
noncomputable def spoke_off (m j : ℕ) : ℝ :=
  if 1 < m then ((j : ℝ) - ((m : ℝ) - 1) / 2) * (Real.pi / 11) else 0

/-- Window-node position (lines 253-256). -/
noncomputable def node_pos (cx cy prog : ℝ) (n i m j : ℕ) : ℝ × ℝ :=
  ((hub_pos cx cy prog n i).1 +
     SPOKE_LENGTH * prog * Real.cos (hubAngle n i + spoke_off m j),
   (hub_pos cx cy prog n i).2 +
     SPOKE_LENGTH * prog * Real.sin (hubAngle n i + spoke_off m j))

/-- Stored node radius (lines 270-272): enlarged by `1.6` when the node
is hovered or selected. -/
noncomputable def nodeRadius (prog : ℝ) (hovered selected : Bool) : ℝ :=
  let r := NODE_RADIUS * prog
  if hovered || selected then r * 1.6 else r

/-- One entry of `self.node_positions`: `(QPointF(win_x, win_y), radius, win)`. -/
structure NodeP where
  center : ℝ × ℝ
  radius : ℝ
  win : Win

/-- The nodes appended for one app: app index `i` of `n`, window list
`wins`, with `start` the flat index of the first window of this app. -/
noncomputable def nodesFor (cx cy prog : ℝ) (hover : Option String) (sel : Int)
    (n i : ℕ) (wins : List Win) (start : ℕ) : List NodeP :=
  wins.enum.map (fun p =>
    { center := node_pos cx cy prog n i wins.length p.1,
      radius := nodeRadius prog (hover == some p.2.id) (sel == ((start + p.1 : ℕ) : Int)),
      win := p.2 })

/-- The app-major loop of `paintEvent`: iterate the sorted keys,
carrying the app index `i` and the running flat index `start`. -/
noncomputable def layoutGo (cx cy prog : ℝ) (hover : Option String) (sel : Int)
    (gs : List (String × List Win)) (n : ℕ) :
    List String → ℕ → ℕ → List NodeP
  | [], _, _ => []
  | k :: ks, i, start =>
    nodesFor cx cy prog hover sel n i (lookupG gs k) start ++
      layoutGo cx cy prog hover sel gs n ks (i + 1) (start + (lookupG gs k).length)

/-- `self.node_positions` as rebuilt by `paintEvent` for group map `gs`,
hover id `hover`, selected index `sel`, ring center `(cx, cy)` and
animation progress `prog`. -/
noncomputable def node_positions (gs : List (String × List Win))
    (hover : Option String) (sel : Int) (cx cy prog : ℝ) : List NodeP :=
  layoutGo cx cy prog hover sel gs (sortKeys gs).length (sortKeys gs) 0 0

/-- Number of windows laid out before app `t` of the sorted key list. -/
def sumPrefix (gs : List (String × List Win)) (ks : List String) (t : ℕ) : ℕ :=
  (((ks.take t).map (fun k => (lookupG gs k).length)).sum)

/-! ### Hit test (`WindowRing.mouseMoveEvent`, lines 351-364) -/

/-- The hit condition of the loop body: Euclidean distance from the
pointer to the stored center is below the stored radius plus 20. -/
def hitP (px py : ℝ) (nd : NodeP) : Prop :=
  Real.sqrt ((px - nd.center.1) * (px - nd.center.1) +
      (py - nd.center.2) * (py - nd.center.2)) < nd.radius + 20

open Classical in
/-- The hit-test loop: scan `node_positions` in order, `break` at the
first hit, returning `(new_selected, new_hover_id)` data. -/
noncomputable def hitTestAux (px py : ℝ) : List NodeP → ℕ → Option (ℕ × Win)
  | [], _ => none
  | nd :: rest, idx =>
    if hitP px py nd then some (idx, nd.win) else hitTestAux px py rest (idx + 1)

/-- Hit-testing a pointer position against the laid-out nodes. -/
noncomputable def hitTest (nodes : List NodeP) (p : ℝ × ℝ) : Option (ℕ × Win) :=
  hitTestAux p.1 p.2 nodes 0

/-! ### Spec-side definitions

These three follow the *spec's words* (§4.3/§4.4 of `spec.md`), to be
compared with the source-derived definitions above. -/

/-- Spec formula: hub `i` of `n` at
`center + progress·hubRadius·(cos,sin)(2π·i/n − π/2)`. -/
noncomputable def specHubPos (cx cy prog : ℝ) (n i : ℕ) : ℝ × ℝ :=
  (cx + prog * HUB_RADIUS * Real.cos (2 * Real.pi * i / n - Real.pi / 2),
   cy + prog * HUB_RADIUS * Real.sin (2 * Real.pi * i / n - Real.pi / 2))

/-- Spec formula: offset `(j − (m−1)/2)·(π/11)` when `m > 1`, else `0`. -/
noncomputable def specOffset (m j : ℕ) : ℝ :=
  if m > 1 then ((j : ℝ) - ((m : ℝ) - 1) / 2) * (Real.pi / 11) else 0

/-- Spec formula: node = hub + `progress·spokeLength·(cos,sin)(angle+offset)`. -/
noncomputable def specNodePos (cx cy prog : ℝ) (n i m j : ℕ) : ℝ × ℝ :=
  ((specHubPos cx cy prog n i).1 +
     prog * SPOKE_LENGTH * Real.cos ((2 * Real.pi * i / n - Real.pi / 2) + specOffset m j),
   (specHubPos cx cy prog n i).2 +
     prog * SPOKE_LENGTH * Real.sin ((2 * Real.pi * i / n - Real.pi / 2) + specOffset m j))

/-- Spec hit predicate (claim C2): distance from the pointer to the node
center below the *base* radius (`NODE_RADIUS` scaled by progress) plus
the fixed tolerance 20, independent of any visual enlargement. -/
def spec_hit (px py : ℝ) (c : ℝ × ℝ) (prog : ℝ) : Prop :=
  Real.sqrt ((px - c.1) * (px - c.1) + (py - c.2) * (py - c.2)) <
    NODE_RADIUS * prog + 20

/-! ### Concrete test data -/

def wA : Win := ⟨"1", "firefox", "A"⟩
def wB : Win := ⟨"2", "Brave-browser", "B"⟩
def wC : Win := ⟨"3", "firefox", "C"⟩

/-- Fresh ring state over a two-window flat list (ids "1", "2"). -/
def s0ex : RingState := ⟨none, -1, none, false, [wA, wB], [], false⟩

/-- State with a peek armed for id "1" while it is hovered. -/
def sArm : RingState := ⟨some "1", 0, some "1", true, [wA, wB], [], false⟩

/-- State hovering id "1", no peek armed. -/
def sHov : RingState := ⟨some "1", 0, none, false, [wA], [], false⟩

/-- Fresh state over a single-window flat list. -/
def sInit1 : RingState := ⟨none, -1, none, false, [wA], [], false⟩

/-- Fresh state over a two-window flat list. -/
def sInit2 : RingState := ⟨none, -1, none, false, [wA, wB], [], false⟩

/-- State over a two-window flat list with the last entry selected. -/
def sW6 : RingState := ⟨none, 1, none, false, [wA, wB], [], false⟩

/-! ## Claim C1 — grouping / flattened-order scenario -/

/-- Claim C1 as stated is false: for the scenario snapshot the flattened
navigation order is `["2", "1", "3"]` (sorted keys put "Brave" before
"Firefox"), not `["1", "3", "2"]`. -/
theorem C1_counterexample :
    (flat_windows (buildGroups [wA, wB, wC])).map Win.id ≠ ["1", "3", "2"] := by
  decide

/-- Claim C1, amended: the scenario snapshot groups into
`Firefox ↦ [1, 3]` and `Brave ↦ [2]`; the sorted keys are
`["Brave", "Firefox"]` and the flattened order is `[2, 1, 3]`. -/
theorem C1_scenario :
    (buildGroups [wA, wB, wC]).map (fun p => (p.1, p.2.map Win.id)) =
      [("Firefox", ["1", "3"]), ("Brave", ["2"])] ∧
    sortKeys (buildGroups [wA, wB, wC]) = ["Brave", "Firefox"] ∧
    (flat_windows (buildGroups [wA, wB, wC])).map Win.id = ["2", "1", "3"] := by
  refine ⟨by decide, by decide, by decide⟩

/-! ## Claim C3 — peek-timer cancellation -/

/-- Claim C3 as stated is false: arming a peek for id "1" by hovering
it, then moving the hover away to id "2" with a forward-navigation key
*before the delay elapses*, leaves the timer running with the stale
pending id, and the expiry issues a peek for "1". -/
theorem C3_counterexample :
    (runEvents s0ex [.move (some (0, "1")), .key .next .ok]).hover = some "2" ∧
    (runEvents s0ex [.move (some (0, "1")), .key .next .ok]).pending = some "1" ∧
    (runEvents s0ex [.move (some (0, "1")), .key .next .ok]).timerOn = true ∧
    (runEvents s0ex [.move (some (0, "1")), .key .next .ok, .fire .ok]).peeked = ["1"] := by
  refine ⟨by decide, by decide, by decide, by decide⟩

/-- On an actual hover change, `mouseMoveEvent` stops the timer, and
restarts it with a fresh pending id only when the new hover is a truthy
id (peeking being enabled in the configuration). -/
theorem mouseMoveUpdate_change (s : RingState) (nh : Option String) (ns : Int)
    (h : nh ≠ s.hover) :
    mouseMoveUpdate s nh ns =
      if truthy nh && PEEK_ENABLED then
        { s with hover := nh, sel := ns, pending := nh, timerOn := true }
      else { s with hover := nh, sel := ns, timerOn := false } := by
  unfold mouseMoveUpdate
  rw [if_pos h]

/-- `_do_peek` with a truthy pending id: the peek request goes out for
that id, and the handler returns normally whatever the external call
does. -/
theorem do_peek_truthy (s : RingState) (ext : ExtCall) (h : truthy s.pending = true) :
    do_peek s ext = { s with peeked := s.peeked ++ [s.pending.getD ""] } := by
  unfold do_peek
  rw [if_pos h]
  cases ext <;> rfl

/-- A timer expiry from a state whose timer is stopped, or whose pending
id is not `X`, issues no peek for `X`. -/
theorem fire_peek_count (s : RingState) (ext : ExtCall) (X : String)
    (h : s.timerOn = false ∨ s.pending ≠ some X) :
    (step s (.fire ext)).peeked.count X = s.peeked.count X := by
  by_cases ht : s.timerOn = true
  · have hfire : step s (.fire ext) = { do_peek s ext with timerOn := false } := by
      simp only [step]
      rw [if_pos ht]
    rw [hfire]
    by_cases hp : truthy s.pending = true
    · obtain ⟨y, hy⟩ : ∃ y, s.pending = some y := by
        cases hpd : s.pending with
        | none => rw [hpd] at hp; simp [truthy] at hp
        | some y => exact ⟨y, rfl⟩
      have hyX : y ≠ X := by
        rcases h with h | h
        · rw [ht] at h; exact absurd h (by decide)
        · intro hEq; exact h (by rw [hy, hEq])
      rw [do_peek_truthy s ext hp]
      show (s.peeked ++ [s.pending.getD ""]).count X = s.peeked.count X
      rw [hy]
      show (s.peeked ++ [y]).count X = s.peeked.count X
      simp [List.count_append, List.count_cons, hyX]
    · have hdp : do_peek s ext = s := by
        unfold do_peek
        rw [if_neg hp]
      rw [hdp]
  · have ht' : s.timerOn = false := by revert ht; cases s.timerOn <;> simp
    have hfire : step s (.fire ext) = s := by
      simp only [step]
      rw [ht']
      rfl
    rw [hfire]

/-- A pointer move never touches the peek-request trace. -/
theorem mouseMoveUpdate_peeked (s : RingState) (nh : Option String) (ns : Int) :
    (mouseMoveUpdate s nh ns).peeked = s.peeked := by
  unfold mouseMoveUpdate
  split
  · split <;> rfl
  · rfl

/-- Claim C3, amended: when the hover moves away from `X` by a *pointer*
move, the pending peek is cancelled (or re-armed for the new id), so an
immediately following timer expiry issues no peek for `X`.  (Keyboard
hover changes do not cancel the timer — see the counterexample.) -/
theorem C3_pointer_cancel (s : RingState) (X : String) (hit : Option (ℕ × String))
    (ext : ExtCall) (hchange : hitId hit ≠ s.hover) (haway : hitId hit ≠ some X) :
    ((step (step s (.move hit)) (.fire ext)).peeked.count X) = s.peeked.count X := by
  have hstep : step s (.move hit) = mouseMoveUpdate s (hitId hit) (hitSel hit) := rfl
  have hcond : (mouseMoveUpdate s (hitId hit) (hitSel hit)).timerOn = false ∨
      (mouseMoveUpdate s (hitId hit) (hitSel hit)).pending ≠ some X := by
    rw [mouseMoveUpdate_change s (hitId hit) (hitSel hit) hchange]
    split
    · exact Or.inr haway
    · exact Or.inl rfl
  rw [hstep, fire_peek_count _ ext X hcond, mouseMoveUpdate_peeked]

/-- Witness for `C3_pointer_cancel` at a concrete armed state. -/
theorem C3_witness :
    hitId (some (1, "2")) ≠ sArm.hover ∧ hitId (some (1, "2")) ≠ some "1" ∧
    ((step (step sArm (.move (some (1, "2")))) (.fire .ok)).peeked.count "1") =
      sArm.peeked.count "1" :=
  ⟨by decide, by decide, C3_pointer_cancel sArm "1" (some (1, "2")) .ok (by decide) (by decide)⟩

/-! ## Claim C5 — best-effort external calls -/

/-- Claim C5 as stated is false: the activation calls on pointer press
and on the confirm key are not guarded by `try`/`except`; when the
external call raises, the exception propagates and `close()` is never
reached. -/
theorem C5_counterexample :
    mousePressEvent sHov .raises = .error () ∧
    keyPressEvent sHov .confirm .raises = .error () := by
  exact ⟨rfl, rfl⟩

/-- Claim C5, amended: only the peek request is best-effort (its
`try`/`except` swallows every outcome, so `do_peek` is insensitive to
the external result); the activation on pointer press or confirm key
closes the ring when the call returns, but propagates an exception —
skipping `close()` — when the call raises. -/
theorem C5_best_effort (s : RingState) (ext : ExtCall) :
    do_peek s ext = do_peek s .ok ∧
    (truthy s.hover = true →
      mousePressEvent s .ok = .ok { s with closed := true } ∧
      mousePressEvent s .raises = .error () ∧
      keyPressEvent s .confirm .ok = .ok { s with closed := true } ∧
      keyPressEvent s .confirm .raises = .error ()) ∧
    (truthy s.hover = false →
      mousePressEvent s ext = .ok { s with closed := true }) := by
  refine ⟨?_, fun h => ?_, fun h => ?_⟩
  · cases ext <;> rfl
  · refine ⟨?_, ?_, ?_, ?_⟩ <;> simp [mousePressEvent, keyPressEvent, h, runActivate]
  · cases ext <;> simp [mousePressEvent, h, runActivate]

/-- Witness for `C5_best_effort` at a concrete hovering state. -/
theorem C5_witness :
    do_peek sHov .raises = do_peek sHov .ok ∧
    mousePressEvent sHov .ok = .ok { sHov with closed := true } :=
  ⟨(C5_best_effort sHov .raises).1, ((C5_best_effort sHov .raises).2.1 (by decide)).1⟩

/-! ## Claim C6 — keyboard navigation wraps -/

/-- Claim C6: with `N ≥ 1` flattened entries, a forward-navigation key
at index `N-1` wraps to `0`, a backward-navigation key at index `0`
wraps to `N-1`, and the hover becomes the id of the new entry. -/
theorem C6_wrap (s : RingState) (N : ℕ) (ext : ExtCall)
    (hN : s.flat.length = N) (hpos : 0 < N) :
    (s.sel = (N : Int) - 1 →
      keyPressEvent s .next ext =
        .ok { s with sel := 0, hover := (s.flat.get? 0).map Win.id }) ∧
    (s.sel = 0 →
      keyPressEvent s .prev ext =
        .ok { s with sel := (N : Int) - 1,
                     hover := (s.flat.get? (N - 1)).map Win.id }) := by
  have hne : s.flat.isEmpty = false := by
    cases hfl : s.flat with
    | nil => rw [hfl] at hN; simp at hN; omega
    | cons a l => rfl
  have hguard : (KEYBOARD_NAV && !s.flat.isEmpty) = true := by
    rw [hne]; rfl
  constructor
  · intro hsel
    have h1 : (s.sel + 1) % (s.flat.length : Int) = 0 := by
      rw [hsel, hN]; simp [Int.emod_self]
    simp only [keyPressEvent]
    rw [if_pos hguard, h1]
    rfl
  · intro hsel
    have h1 : (s.sel - 1) % (s.flat.length : Int) = (N : Int) - 1 := by
      rw [hsel, hN]
      have h2 : (0 - 1 : Int) = ((N : Int) - 1) + (N : Int) * (-1) := by ring
      rw [h2, Int.add_mul_emod_self_left]
      exact Int.emod_eq_of_lt (by omega) (by omega)
    have h3 : ((N : Int) - 1).toNat = N - 1 := by omega
    simp only [keyPressEvent]
    rw [if_pos hguard, h1, h3]

/-- Witness for `C6_wrap`: forward wrap from the last index with two
entries. -/
theorem C6_witness :
    keyPressEvent sW6 .next .ok =
      .ok { sW6 with sel := 0, hover := (sW6.flat.get? 0).map Win.id } :=
  (C6_wrap sW6 2 .ok (by decide) (by decide)).1 (by decide)

/-! ## Claim C10 — navigation from the sentinel index -/

/-- Claim C10 as stated is false at `N = 1`: a backward-navigation key
from the sentinel index `-1` selects `(-2) mod 1 = 0`, not
`N - 2 = -1`. -/
theorem C10_counterexample :
    keyPressEvent sInit1 .prev .ok = .ok { sInit1 with sel := 0, hover := some "1" } ∧
    (0 : Int) ≠ ((1 : ℕ) : Int) - 2 := by
  exact ⟨rfl, by decide⟩

/-- Claim C10, amended: from the sentinel index `-1`, forward navigation
selects index `0`; backward navigation selects `(-2) mod N`, which is
`N - 2` when `N ≥ 2` but `0` when `N = 1`. -/
theorem C10_initial_nav (s : RingState) (N : ℕ) (ext : ExtCall)
    (hN : s.flat.length = N) (hpos : 0 < N) (hsel : s.sel = -1) :
    keyPressEvent s .next ext =
      .ok { s with sel := 0, hover := (s.flat.get? 0).map Win.id } ∧
    keyPressEvent s .prev ext =
      .ok { s with sel := (-2 : Int) % (N : Int),
                   hover := (s.flat.get? ((-2 : Int) % (N : Int)).toNat).map Win.id } ∧
    (2 ≤ N → (-2 : Int) % (N : Int) = (N : Int) - 2) ∧
    (N = 1 → (-2 : Int) % (N : Int) = 0) := by
  have hne : s.flat.isEmpty = false := by
    cases hfl : s.flat with
    | nil => rw [hfl] at hN; simp at hN; omega
    | cons a l => rfl
  have hguard : (KEYBOARD_NAV && !s.flat.isEmpty) = true := by
    rw [hne]; rfl
  refine ⟨?_, ?_, fun h2 => ?_, fun h1 => ?_⟩
  · have h1 : (s.sel + 1) % (s.flat.length : Int) = 0 := by
      rw [hsel, hN]; simp
    simp only [keyPressEvent]
    rw [if_pos hguard, h1]
    rfl
  · have h1 : (s.sel - 1) % (s.flat.length : Int) = (-2 : Int) % (N : Int) := by
      rw [hsel, hN]; norm_num
    simp only [keyPressEvent]
    rw [if_pos hguard, h1]
  · have h2' : (-2 : Int) = ((N : Int) - 2) + (N : Int) * (-1) := by ring
    rw [h2', Int.add_mul_emod_self_left]
    exact Int.emod_eq_of_lt (by omega) (by omega)
  · subst h1; decide

/-- Witness for `C10_initial_nav` at a concrete two-entry state. -/
theorem C10_witness :
    keyPressEvent sInit2 .prev .ok =
      .ok { sInit2 with sel := (-2 : Int) % ((2 : ℕ) : Int),
                        hover := (sInit2.flat.get? ((-2 : Int) % ((2 : ℕ) : Int)).toNat).map Win.id } :=
  (C10_initial_nav sInit2 2 .ok (by decide) (by decide) (by decide)).2.1


/-! ## Claim C7 — grouping is an exact partition -/

/-- Reading back after an insertion: the bucket for the inserted key
gains `w` at its end; every other bucket is untouched. -/
theorem lookupG_addToGroups (gs : List (String × List Win)) (k : String) (w : Win)
    (k' : String) :
    lookupG (addToGroups gs k w) k' =
      if k' = k then lookupG gs k' ++ [w] else lookupG gs k' := by
  induction gs with
  | nil =>
    simp only [addToGroups, lookupG]
    by_cases h : k' = k
    · subst h; simp
    · rw [if_neg (fun hEq => h hEq.symm), if_neg h]
  | cons q rest ih =>
    obtain ⟨k₀, b⟩ := q
    by_cases h0 : k₀ = k
    · subst h0
      simp only [addToGroups, lookupG, if_pos rfl]
      by_cases h : k₀ = k'
      · rw [if_pos h, if_pos h.symm, if_pos h]
      · rw [if_neg h, if_neg (fun hEq => h hEq.symm), if_neg h]
    · simp only [addToGroups, lookupG, if_neg h0, ih]
      by_cases h : k₀ = k'
      · have hk : ¬ k' = k := fun hEq => h0 (h.trans hEq)
        rw [if_pos h, if_neg hk, if_pos h]
      · by_cases hk : k' = k
        · rw [if_neg h, if_pos hk, if_pos hk, if_neg h]
        · rw [if_neg h, if_neg hk, if_neg hk, if_neg h]

/-- The keys after an insertion: unchanged if the key was present,
otherwise the new key is appended at the end. -/
theorem keys_addToGroups (gs : List (String × List Win)) (k : String) (w : Win) :
    (addToGroups gs k w).map Prod.fst =
      if k ∈ gs.map Prod.fst then gs.map Prod.fst else gs.map Prod.fst ++ [k] := by
  induction gs with
  | nil => simp [addToGroups]
  | cons q rest ih =>
    obtain ⟨k₀, b⟩ := q
    by_cases h0 : k₀ = k
    · subst h0; simp [addToGroups]
    · simp only [addToGroups, if_neg h0, List.map_cons, ih]
      by_cases hmem : k ∈ rest.map Prod.fst
      · rw [if_pos hmem, if_pos (List.mem_cons_of_mem _ hmem)]
      · have hnotc : k ∉ k₀ :: rest.map Prod.fst := by
          intro hc
          rcases List.mem_cons.mp hc with hEq | hc'
          · exact h0 hEq.symm
          · exact hmem hc'
        rw [if_neg hmem, if_neg hnotc]
        simp

/-- Insertion keeps every bucket non-empty. -/
theorem nonempty_addToGroups (gs : List (String × List Win)) (k : String) (w : Win)
    (hne : ∀ p ∈ gs, p.2 ≠ []) :
    ∀ p ∈ addToGroups gs k w, p.2 ≠ [] := by
  induction gs with
  | nil =>
    intro p hp
    simp only [addToGroups, List.mem_singleton] at hp
    subst hp; simp
  | cons q rest ih =>
    obtain ⟨k₀, b⟩ := q
    intro p hp
    by_cases h0 : k₀ = k
    · simp only [addToGroups, if_pos h0] at hp
      rcases List.mem_cons.mp hp with h | h
      · subst h; simp
      · exact hne p (List.mem_cons_of_mem _ h)
    · simp only [addToGroups, if_neg h0] at hp
      rcases List.mem_cons.mp hp with h | h
      · subst h; exact hne (k₀, b) (List.mem_cons_self _ _)
      · exact ih (fun r hr => hne r (List.mem_cons_of_mem _ hr)) p h

/-- Insertion keeps the keys distinct. -/
theorem nodup_addToGroups (gs : List (String × List Win)) (k : String) (w : Win)
    (hnd : (gs.map Prod.fst).Nodup) :
    ((addToGroups gs k w).map Prod.fst).Nodup := by
  rw [keys_addToGroups]
  by_cases hmem : k ∈ gs.map Prod.fst
  · rw [if_pos hmem]; exact hnd
  · rw [if_neg hmem]
    simp [List.nodup_append, hnd, hmem]

/-- Flattening after an insertion is a permutation of the old flattening
with `w` appended. -/
theorem flatten_addToGroups (gs : List (String × List Win)) (k : String) (w : Win) :
    ((addToGroups gs k w).flatMap Prod.snd).Perm (gs.flatMap Prod.snd ++ [w]) := by
  induction gs with
  | nil => simp [addToGroups]
  | cons q rest ih =>
    obtain ⟨k₀, b⟩ := q
    by_cases h0 : k₀ = k
    · subst h0
      simp only [addToGroups, if_true]
      simp only [List.flatMap_cons]
      rw [List.append_assoc, List.append_assoc]
      exact (@List.perm_append_comm _ [w] (rest.flatMap Prod.snd)).append_left b
    · simp only [addToGroups]
      rw [if_neg h0]
      simp only [List.flatMap_cons]
      rw [List.append_assoc]
      exact ih.append_left b

/-- The grouping fold, relative to an arbitrary accumulator: buckets
extend by the filtered suffix. -/
theorem lookupG_foldl (ws : List Win) (gs : List (String × List Win)) (k : String) :
    lookupG (ws.foldl (fun acc w => addToGroups acc (normalize_app_name w.app) w) gs) k =
      lookupG gs k ++ ws.filter (fun w => normalize_app_name w.app == k) := by
  induction ws generalizing gs with
  | nil => simp
  | cons w ws ih =>
    simp only [List.foldl_cons, List.filter_cons, ih, lookupG_addToGroups]
    by_cases h : normalize_app_name w.app = k
    · rw [if_pos h.symm, if_pos (by simp [h])]
      simp
    · rw [if_neg (fun hEq => h hEq.symm), if_neg (by simp [h])]

/-- The grouping fold keeps buckets non-empty and keys distinct. -/
theorem wf_foldl (ws : List Win) (gs : List (String × List Win))
    (hne : ∀ p ∈ gs, p.2 ≠ []) (hnd : (gs.map Prod.fst).Nodup) :
    (∀ p ∈ ws.foldl (fun acc w => addToGroups acc (normalize_app_name w.app) w) gs,
      p.2 ≠ []) ∧
    ((ws.foldl (fun acc w => addToGroups acc (normalize_app_name w.app) w) gs).map
      Prod.fst).Nodup := by
  induction ws generalizing gs with
  | nil => exact ⟨hne, hnd⟩
  | cons w ws ih =>
    simp only [List.foldl_cons]
    exact ih _ (nonempty_addToGroups gs _ w hne) (nodup_addToGroups gs _ w hnd)

/-- The grouping fold's flattening is a permutation of the accumulator's
flattening followed by the processed windows. -/
theorem flatten_foldl (ws : List Win) (gs : List (String × List Win)) :
    ((ws.foldl (fun acc w => addToGroups acc (normalize_app_name w.app) w) gs).flatMap
        Prod.snd).Perm (gs.flatMap Prod.snd ++ ws) := by
  induction ws generalizing gs with
  | nil => simp
  | cons w ws ih =>
    simp only [List.foldl_cons]
    refine (ih _).trans ?_
    refine ((flatten_addToGroups gs (normalize_app_name w.app) w).append_right ws).trans ?_
    rw [List.append_assoc]
    exact List.Perm.refl _

/-- Claim C7: grouping partitions the snapshot exactly — every bucket is
non-empty, the keys are pairwise distinct, the bucket of key `k` is
precisely the input subsequence normalizing to `k` (input order kept),
and the buckets together are a permutation of the input. -/
theorem C7_partition (ws : List Win) :
    (∀ p ∈ buildGroups ws, p.2 ≠ []) ∧
    ((buildGroups ws).map Prod.fst).Nodup ∧
    (∀ k, lookupG (buildGroups ws) k =
      ws.filter (fun w => normalize_app_name w.app == k)) ∧
    ((buildGroups ws).flatMap Prod.snd).Perm ws := by
  refine ⟨(wf_foldl ws [] (by simp) (by simp)).1, (wf_foldl ws [] (by simp) (by simp)).2,
    fun k => ?_, ?_⟩
  · have h := lookupG_foldl ws [] k
    simpa [lookupG] using h
  · have h := flatten_foldl ws []
    simpa using h

/-- Witness for `C7_partition` on the scenario snapshot. -/
theorem C7_witness :
    (("Firefox", [wA, wC]) : String × List Win).2 ≠ [] ∧
    ((buildGroups [wA, wB, wC]).flatMap Prod.snd).Perm [wA, wB, wC] :=
  ⟨(C7_partition [wA, wB, wC]).1 ("Firefox", [wA, wC]) (by decide),
    (C7_partition [wA, wB, wC]).2.2.2⟩

/-! ## Claim C8 — the normalizer is idempotent -/

/-- The normalizer either returns its input unchanged or one of the five
canonical keys. -/
theorem browserKey_cases (s : String) (r : String) (h : browserKey s = some r) :
    r = "Brave" ∨ r = "Firefox" ∨ r = "Chrome" := by
  unfold browserKey at h
  split_ifs at h <;> simp_all

theorem normalize_cases (x : String) :
    normalize_app_name x = x ∨
      normalize_app_name x ∈ (["Brave", "Firefox", "Chrome", "Code", "Terminal"] :
        List String) := by
  unfold normalize_app_name
  cases hb : browserKey (strLower x) with
  | some r =>
    rcases browserKey_cases _ r hb with h | h | h <;> simp [h]
  | none => split_ifs <;> simp

/-- Claim C8: the app-name normalizer is idempotent (determinism is
intrinsic: it is a pure function of its argument). -/
theorem C8_idempotent (x : String) :
    normalize_app_name (normalize_app_name x) = normalize_app_name x := by
  rcases normalize_cases x with h | h
  · rw [h]; exact h
  · simp only [List.mem_cons, List.not_mem_nil, or_false] at h
    rcases h with h | h | h | h | h <;> rw [h] <;> decide

/-! ## Claim C9 — the animation-progress setter clamps -/

/-- Claim C9: the stored progress is `max 0 (min 1 v)`, hence always in
`[0, 1]` whatever the animation driver supplies. -/
theorem C9_clamp (v : ℝ) :
    anim_progress_set v = max 0 (min 1 v) ∧
    0 ≤ anim_progress_set v ∧ anim_progress_set v ≤ 1 := by
  refine ⟨rfl, le_max_left 0 _, ?_⟩
  unfold anim_progress_set
  exact max_le (by norm_num) (min_le_left 1 v)

/-! ## Claim C4 — radial layout formulas -/

/-- `nodesFor` lays out exactly one node per window. -/
theorem nodesFor_length (cx cy prog : ℝ) (hover : Option String) (sel : Int)
    (n i : ℕ) (wins : List Win) (start : ℕ) :
    (nodesFor cx cy prog hover sel n i wins start).length = wins.length := by
  simp [nodesFor, List.enum]

/-- The node `nodesFor` builds for window `j`. -/
theorem nodesFor_get (cx cy prog : ℝ) (hover : Option String) (sel : Int)
    (n i : ℕ) (wins : List Win) (start j : ℕ) (hj : j < wins.length) :
    (nodesFor cx cy prog hover sel n i wins start)[j]? =
      some { center := node_pos cx cy prog n i wins.length j,
             radius := nodeRadius prog (hover == some (wins.get ⟨j, hj⟩).id)
               (sel == ((start + j : ℕ) : Int)),
             win := wins.get ⟨j, hj⟩ } := by
  simp only [nodesFor, List.enum, List.getElem?_map, List.getElem?_enumFrom,
    List.getElem?_eq_getElem hj]
  simp

/-- Indexed access into the layout loop: app `t` (of the remaining key
list `ks`, app index offset `i0`, flat index offset `start`), window `j`. -/
theorem layoutGo_get (cx cy prog : ℝ) (hover : Option String) (sel : Int)
    (gs : List (String × List Win)) (n : ℕ) :
    ∀ (ks : List String) (i0 start t j : ℕ) (ht : t < ks.length)
      (hj : j < (lookupG gs (ks.get ⟨t, ht⟩)).length),
      (layoutGo cx cy prog hover sel gs n ks i0 start)[sumPrefix gs ks t + j]? =
        some { center := node_pos cx cy prog n (i0 + t)
                 (lookupG gs (ks.get ⟨t, ht⟩)).length j,
               radius := nodeRadius prog
                 (hover == some ((lookupG gs (ks.get ⟨t, ht⟩)).get ⟨j, hj⟩).id)
                 (sel == ((start + (sumPrefix gs ks t + j) : ℕ) : Int)),
               win := (lookupG gs (ks.get ⟨t, ht⟩)).get ⟨j, hj⟩ }
  | [], i0, start, t, j, ht, hj => absurd ht (by simp)
  | k :: ks, i0, start, 0, j, ht, hj => by
    simp only [sumPrefix, List.take_zero, List.map_nil, List.sum_nil, Nat.zero_add,
      List.get_cons_zero, Nat.add_zero] at hj ⊢
    simp only [layoutGo]
    rw [List.getElem?_append_left
      (by rw [nodesFor_length]; exact hj)]
    exact nodesFor_get cx cy prog hover sel n i0 _ start j hj
  | k :: ks, i0, start, t + 1, j, ht, hj => by
    have ht' : t < ks.length := Nat.lt_of_succ_lt_succ ht
    have hlen : (nodesFor cx cy prog hover sel n i0 (lookupG gs k) start).length
        = (lookupG gs k).length := nodesFor_length cx cy prog hover sel n i0 _ start
    have hsp : sumPrefix gs (k :: ks) (t + 1)
        = (lookupG gs k).length + sumPrefix gs ks t := by
      simp [sumPrefix, List.take_succ_cons]
    have hget : (k :: ks).get ⟨t + 1, ht⟩ = ks.get ⟨t, ht'⟩ := rfl
    simp only [layoutGo, hsp, hget]
    rw [List.getElem?_append_right (by rw [hlen]; omega), hlen]
    have hidx : (lookupG gs k).length + sumPrefix gs ks t + j - (lookupG gs k).length
        = sumPrefix gs ks t + j := by omega
    rw [hidx]
    have heq1 : i0 + (t + 1) = (i0 + 1) + t := by omega
    have heq2 : start + ((lookupG gs k).length + sumPrefix gs ks t + j)
        = (start + (lookupG gs k).length) + (sumPrefix gs ks t + j) := by omega
    rw [heq1, heq2]
    exact layoutGo_get cx cy prog hover sel gs n ks (i0 + 1)
      (start + (lookupG gs k).length) t j ht' hj

/-- Source hub formula = spec hub formula. -/
theorem hub_eq_spec (cx cy prog : ℝ) (n i : ℕ) :
    hub_pos cx cy prog n i = specHubPos cx cy prog n i := by
  unfold hub_pos specHubPos hubAngle
  simp only [Prod.mk.injEq]
  constructor <;> ring

/-- Source node formula = spec node formula. -/
theorem node_eq_spec (cx cy prog : ℝ) (n i m j : ℕ) :
    node_pos cx cy prog n i m j = specNodePos cx cy prog n i m j := by
  have hoff : specOffset m j = spoke_off m j := rfl
  have hang : (2 * Real.pi * (i : ℝ) / (n : ℝ) - Real.pi / 2) = hubAngle n i := rfl
  unfold node_pos specNodePos specHubPos hub_pos
  rw [hoff, hang]
  simp only [Prod.mk.injEq]
  constructor <;> ring

/-- Claim C4: for every group map, hover/selection state and progress in
`[0, 1]`, hub `i` of `n` sits at
`center + progress·hubRadius·(cos,sin)(2πi/n − π/2)`, and window `j` of
an app with `m` windows sits at
`hub + progress·spokeLength·(cos,sin)(angle + offset)` with
`offset = (j − (m−1)/2)·(π/11)` for `m > 1` and `0` for `m = 1`. -/
theorem C4_layout (gs : List (String × List Win)) (hover : Option String) (sel : Int)
    (cx cy prog : ℝ) (h0 : 0 ≤ prog) (h1 : prog ≤ 1) :
    (∀ n i : ℕ, hub_pos cx cy prog n i = specHubPos cx cy prog n i) ∧
    (∀ (t j : ℕ) (ht : t < (sortKeys gs).length)
      (hj : j < (lookupG gs ((sortKeys gs).get ⟨t, ht⟩)).length),
      ((node_positions gs hover sel cx cy prog)[sumPrefix gs (sortKeys gs) t + j]?).map
          NodeP.center =
        some (specNodePos cx cy prog (sortKeys gs).length t
          (lookupG gs ((sortKeys gs).get ⟨t, ht⟩)).length j)) := by
  refine ⟨fun n i => hub_eq_spec cx cy prog n i, fun t j ht hj => ?_⟩
  unfold node_positions
  rw [layoutGo_get cx cy prog hover sel gs (sortKeys gs).length (sortKeys gs) 0 0 t j ht hj]
  simp only [Option.map_some', Nat.zero_add]
  exact congrArg some (node_eq_spec cx cy prog (sortKeys gs).length t _ j)

/-- Witness for `C4_layout` at a concrete progress value. -/
theorem C4_witness :
    hub_pos 400 400 (1 / 2 : ℝ) 2 1 = specHubPos 400 400 (1 / 2 : ℝ) 2 1 :=
  (C4_layout (buildGroups [wA]) none (-1) 400 400 (1 / 2)
    (by norm_num) (by norm_num)).1 2 1

/-! ## Claim C2 — hit test against the stored (possibly enlarged) radii -/

open Classical in
/-- First-hit characterization of the scan loop, at an arbitrary index
offset `base`. -/
theorem hitTestAux_eq_some (px py : ℝ) :
    ∀ (L : List NodeP) (base : ℕ) (r : ℕ × Win),
      hitTestAux px py L base = some r ↔
        ∃ (t : ℕ) (ht : t < L.length),
          r = (base + t, (L.get ⟨t, ht⟩).win) ∧ hitP px py (L.get ⟨t, ht⟩) ∧
          ∀ (u : ℕ) (hu : u < t), ¬ hitP px py (L.get ⟨u, Nat.lt_trans hu ht⟩)
  | [], base, r => by simp [hitTestAux]
  | nd :: L, base, r => by
    rw [show hitTestAux px py (nd :: L) base =
        (if hitP px py nd then some (base, nd.win)
         else hitTestAux px py L (base + 1)) from rfl]
    by_cases h : hitP px py nd
    · rw [if_pos h]
      constructor
      · intro hr
        injection hr with hr
        refine ⟨0, Nat.succ_pos _, ?_, h, ?_⟩
        · rw [← hr]
          rfl
        · intro u hu
          exact absurd hu (Nat.not_lt_zero u)
      · rintro ⟨t, ht, hr, hhit, hmin⟩
        cases t with
        | zero => rw [hr]; rfl
        | succ t' => exact absurd h (hmin 0 (Nat.succ_pos _))
    · rw [if_neg h, hitTestAux_eq_some px py L (base + 1) r]
      constructor
      · rintro ⟨t', ht', hr, hhit, hmin⟩
        refine ⟨t' + 1, Nat.succ_lt_succ ht', ?_, hhit, ?_⟩
        · rw [hr]
          rw [Prod.ext_iff]
          exact ⟨by omega, rfl⟩
        · intro u hu
          cases u with
          | zero => exact h
          | succ v => exact hmin v (Nat.lt_of_succ_lt_succ hu)
      · rintro ⟨t, ht, hr, hhit, hmin⟩
        cases t with
        | zero => exact absurd hhit h
        | succ t' =>
          refine ⟨t', Nat.lt_of_succ_lt_succ ht, ?_, hhit, ?_⟩
          · rw [hr]
            rw [Prod.ext_iff]
            exact ⟨by omega, rfl⟩
          · intro v hv
            exact hmin (v + 1) (Nat.succ_lt_succ hv)

/-- Claim C2, amended: (a) `hitTest` returns `(i, w)` exactly when node
`i` is the first node, in app-major then within-group order, whose
*stored* radius plus the fixed tolerance 20 exceeds the Euclidean
distance to the pointer; (b) the stored radius of a laid-out node is
`nodeRadius`: the base radius `NODE_RADIUS·progress`, scaled by `1.6`
when that node is hovered or selected — so hit-testing is *not*
independent of the hover/selection enlargement. -/
theorem C2_hitTest :
    (∀ (nodes : List NodeP) (px py : ℝ) (i : ℕ) (w : Win),
      hitTest nodes (px, py) = some (i, w) ↔
        ∃ (hlt : i < nodes.length),
          w = (nodes.get ⟨i, hlt⟩).win ∧ hitP px py (nodes.get ⟨i, hlt⟩) ∧
          ∀ (u : ℕ) (hu : u < i), ¬ hitP px py (nodes.get ⟨u, Nat.lt_trans hu hlt⟩)) ∧
    (∀ (gs : List (String × List Win)) (hover : Option String) (sel : Int)
      (cx cy prog : ℝ) (t j : ℕ) (ht : t < (sortKeys gs).length)
      (hj : j < (lookupG gs ((sortKeys gs).get ⟨t, ht⟩)).length),
      ((node_positions gs hover sel cx cy prog)[sumPrefix gs (sortKeys gs) t + j]?).map
          NodeP.radius =
        some (nodeRadius prog
          (hover == some ((lookupG gs ((sortKeys gs).get ⟨t, ht⟩)).get ⟨j, hj⟩).id)
          (sel == ((sumPrefix gs (sortKeys gs) t + j : ℕ) : Int)))) := by
  constructor
  · intro nodes px py i w
    rw [show hitTest nodes (px, py) = hitTestAux px py nodes 0 from rfl,
      hitTestAux_eq_some px py nodes 0 (i, w)]
    constructor
    · rintro ⟨t, ht, hr, hhit, hmin⟩
      rw [Prod.ext_iff] at hr
      obtain ⟨hi, hw⟩ := hr
      have hi' : i = t := by omega
      subst hi'
      exact ⟨ht, hw, hhit, fun u hu => hmin u hu⟩
    · rintro ⟨hlt, hw, hhit, hmin⟩
      refine ⟨i, hlt, ?_, hhit, fun u hu => hmin u hu⟩
      rw [Prod.ext_iff]
      exact ⟨by omega, hw⟩
  · intro gs hover sel cx cy prog t j ht hj
    unfold node_positions
    rw [layoutGo_get cx cy prog hover sel gs (sortKeys gs).length (sortKeys gs) 0 0 t j ht hj]
    simp only [Option.map_some', Nat.zero_add]

/-- A window whose app name normalizes to itself. -/
def wX : Win := ⟨"1", "xterm", "T"⟩

/-- The single node of a one-app, one-window ring sits straight above
the center: angle `−π/2`, offset `0`. -/
theorem node_pos_single : node_pos 400 400 1 1 0 1 0 = ((400 : ℝ), (140 : ℝ)) := by
  have hang : hubAngle 1 0 = -(Real.pi / 2) := by
    unfold hubAngle
    push_cast
    ring
  have hoff : spoke_off 1 0 = 0 := by
    unfold spoke_off
    norm_num
  unfold node_pos hub_pos
  rw [hang, hoff, add_zero, Real.cos_neg, Real.sin_neg, Real.cos_pi_div_two,
    Real.sin_pi_div_two]
  unfold HUB_RADIUS SPOKE_LENGTH
  norm_num [Prod.ext_iff]

/-- The full layout for the one-window snapshot, hovered on its id: one
node at `(400, 140)` with the *enlarged* stored radius `25.6`. -/
theorem gsX_layout :
    node_positions (buildGroups [wX]) (some "1") (-1) 400 400 1 =
      [{ center := ((400 : ℝ), (140 : ℝ)), radius := 25.6, win := wX }] := by
  have hrad : nodeRadius 1 ((some "1" : Option String) == some wX.id)
      ((-1 : Int) == (((0 + 0 : ℕ)) : Int)) = 25.6 := by
    rw [show ((some "1" : Option String) == some wX.id) = true from rfl,
      show ((-1 : Int) == (((0 + 0 : ℕ)) : Int)) = false from rfl]
    unfold nodeRadius
    norm_num [NODE_RADIUS]
  unfold node_positions
  rw [show sortKeys (buildGroups [wX]) = ["xterm"] from by decide]
  simp only [layoutGo, List.length_singleton, List.append_nil]
  rw [show lookupG (buildGroups [wX]) "xterm" = [wX] from by decide]
  simp only [nodesFor, List.enum, List.enumFrom, List.map, List.length_singleton]
  rw [hrad, node_pos_single]

/-- At pointer `(440, 140)` the code's hit condition holds for the
enlarged node (distance `40 < 25.6 + 20`), while the spec predicate with
the base radius fails (`40 < 16 + 20` is false). -/
theorem hitP_concrete :
    hitP 440 140 { center := ((400 : ℝ), (140 : ℝ)), radius := 25.6, win := wX } ∧
    ¬ spec_hit 440 140 ((400 : ℝ), (140 : ℝ)) 1 := by
  have hsqrt : Real.sqrt (((440 : ℝ) - 400) * (440 - 400) + (140 - 140) * (140 - 140))
      = 40 := by
    rw [show (((440 : ℝ) - 400) * (440 - 400) + (140 - 140) * (140 - 140)) = 40 ^ 2 by
      norm_num]
    exact Real.sqrt_sq (by norm_num)
  constructor
  · show Real.sqrt (((440 : ℝ) - 400) * (440 - 400) + (140 - 140) * (140 - 140))
      < 25.6 + 20
    rw [hsqrt]
    norm_num
  · show ¬ Real.sqrt (((440 : ℝ) - 400) * (440 - 400) + (140 - 140) * (140 - 140))
      < NODE_RADIUS * 1 + 20
    rw [hsqrt]
    unfold NODE_RADIUS
    norm_num

open Classical in
/-- Claim C2 as stated is false: with the one `xterm` window hovered,
the stored node radius is the enlarged `25.6 = (16·1)·1.6`; at pointer
`(440, 140)` — Euclidean distance 40 from the node center `(400, 140)`
— the code's hit test declares the node hit, although the claimed
predicate (base radius `16·1` plus tolerance 20) rejects it. -/
theorem C2_counterexample :
    hitTest (node_positions (buildGroups [wX]) (some "1") (-1) 400 400 1) (440, 140) =
      some (0, wX) ∧
    ¬ spec_hit 440 140 ((400 : ℝ), (140 : ℝ)) 1 ∧
    ((node_positions (buildGroups [wX]) (some "1") (-1) 400 400 1)[0]?).map NodeP.center =
      some ((400 : ℝ), (140 : ℝ)) := by
  refine ⟨?_, hitP_concrete.2, ?_⟩
  · rw [gsX_layout]
    rw [show hitTest [{ center := ((400 : ℝ), (140 : ℝ)), radius := 25.6, win := wX }]
        (440, 140) =
      (if hitP 440 140 { center := ((400 : ℝ), (140 : ℝ)), radius := 25.6, win := wX }
       then some (0, wX) else none) from rfl]
    rw [if_pos hitP_concrete.1]
  · rw [gsX_layout]
    rfl

/-- Witness for `C2_hitTest` at the concrete one-node layout. -/
theorem C2_witness :
    ((node_positions (buildGroups [wX]) (some "1") (-1) 400 400
        1)[sumPrefix (buildGroups [wX]) (sortKeys (buildGroups [wX])) 0 + 0]?).map
        NodeP.radius =
      some (nodeRadius 1
        ((some "1" : Option String) ==
          some ((lookupG (buildGroups [wX])
            ((sortKeys (buildGroups [wX])).get ⟨0, by decide⟩)).get ⟨0, by decide⟩).id)
        ((-1 : Int) ==
          ((sumPrefix (buildGroups [wX]) (sortKeys (buildGroups [wX])) 0 + 0 : ℕ) : Int))) :=
  C2_hitTest.2 (buildGroups [wX]) (some "1") (-1) 400 400 1 0 0 (by decide) (by decide)
